import Mathlib

/-!
Verification development for the healthcare-analytics test-selection program
(`src/ipinstance.py`, `src/main.py`).

The program loads an instance (`data_parse`), builds a docplex model whose
binary test variables `T k` must distinguish every unordered disease pair
through an XOR/OR gadget (`IPInstance.build_constraints`), relaxes the model
(`LinearRelaxer.make_relaxed_model`, since `__init__` hardcodes
`relax_model=True`), solves it with CPLEX and returns
`self.model.objective_value` (`IPInstance.solve`).  `main.py` wraps the value
in a JSON record whose `Solution` field is the constant string `"OPT"`.

Embedding conventions:
* Python floats are modelled as `ℚ` (the instances considered carry exact
  decimal data); matrix entries keep the source dtype `int` as `ℤ`.
* The external CPLEX call is modelled by its standard semantics: on a feasible
  model, `model.solve()` followed by `model.objective_value` yields the
  optimum of the model that was built, i.e. the least objective value over the
  (relaxed) feasible region.  This is captured relationally by `SolveReturns`.
* The `exit(1)` path of `data_parse` (which catches every exception) is
  modelled by `none`.
-/

/-- The instance data held by `IPInstance.__init__` after parsing:
`numTests` (n), `numDiseases` (m), the cost vector and the response matrix
(`A : numTests × numDiseases`, dtype int). -/
structure IPInstance where
  numTests : ℕ
  numDiseases : ℕ
  costOfTest : List ℚ
  A : List (List ℤ)

/-- Matrix access `self.A[k][i]` (0 as the out-of-range default; all uses in
the model stay in range). -/
def IPInstance.a (inst : IPInstance) (k i : ℕ) : ℤ :=
  (inst.A.getD k []).getD i 0

/-- `self.A[k][i]` coerced into the numeric field of the model, as in the
products `self.tests[k] * self.A[k][i]`. -/
def IPInstance.aQ (inst : IPInstance) (k i : ℕ) : ℚ :=
  (inst.a k i : ℚ)

/-- Cost access `self.costOfTest[k]`. -/
def IPInstance.cost (inst : IPInstance) (k : ℕ) : ℚ :=
  inst.costOfTest.getD k 0

/-- The shape invariants of §3 of the specification: the cost vector has one
entry per test, the matrix is `numTests × numDiseases` with 0/1 entries, and
costs are nonnegative. -/
def WellFormed (inst : IPInstance) : Prop :=
  inst.costOfTest.length = inst.numTests ∧
  inst.A.length = inst.numTests ∧
  (∀ row ∈ inst.A, row.length = inst.numDiseases) ∧
  (∀ row ∈ inst.A, ∀ e ∈ row, e = 0 ∨ e = 1) ∧
  (∀ c ∈ inst.costOfTest, 0 ≤ c)

instance WellFormed.dec (inst : IPInstance) : Decidable (WellFormed inst) := by
  unfold WellFormed; infer_instance

/-- Domain of one model variable.  All variables of `build_constraints` are
`binary_var`s; `LinearRelaxer.make_relaxed_model` (applied exactly when
`relax_model` is true) replaces the integrality by the bounds `0 ≤ x ≤ 1`. -/
def varOK : Bool → ℚ → Prop
  | true, q => 0 ≤ q ∧ q ≤ 1
  | false, q => q = 0 ∨ q = 1

instance varOK.dec (relax : Bool) (q : ℚ) : Decidable (varOK relax q) :=
  match relax with
  | true => inferInstanceAs (Decidable (0 ≤ q ∧ q ≤ 1))
  | false => inferInstanceAs (Decidable (q = 0 ∨ q = 1))

/-- The element appended to `xor_vars` for disease pair `(i, j)` at test `k`:
the auxiliary variable when both responses are nonzero, the term
`tests[k] * A[k][j]` (resp. `tests[k] * A[k][i]`) when exactly one is nonzero,
and nothing (0 in the sum) when both are zero. -/
def xorTerm (inst : IPInstance) (T : ℕ → ℚ) (x : ℕ → ℚ) (i j k : ℕ) : ℚ :=
  if inst.a k i ≠ 0 ∧ inst.a k j ≠ 0 then x k
  else if inst.a k i = 0 ∧ inst.a k j ≠ 0 then T k * inst.aQ k j
  else if inst.a k i ≠ 0 ∧ inst.a k j = 0 then T k * inst.aQ k i
  else 0

/-- The constraints emitted by one iteration of the disease-pair loop of
`build_constraints`, for the pair `(i, j)`: the domain of the pair's `or_var`
`o`, the per-test XOR-gadget constraints (with `x k` the `xor_var` of test `k`
when both responses are nonzero), `or_var <= sum(xor_vars)` and
`or_var >= 1`. -/
def pairSat (inst : IPInstance) (relax : Bool) (T : ℕ → ℚ)
    (o : ℚ) (x : ℕ → ℚ) (i j : ℕ) : Prop :=
  varOK relax o ∧
  (∀ k, k < inst.numTests →
    ((inst.a k i ≠ 0 ∧ inst.a k j ≠ 0 →
       varOK relax (x k) ∧
       x k ≤ T k * inst.aQ k i + T k * inst.aQ k j ∧
       T k * inst.aQ k i - T k * inst.aQ k j ≤ x k ∧
       -(T k * inst.aQ k i) + T k * inst.aQ k j ≤ x k ∧
       x k ≤ 2 - T k * inst.aQ k i - T k * inst.aQ k j ∧
       x k ≤ o) ∧
     (inst.a k i = 0 ∧ inst.a k j ≠ 0 → T k * inst.aQ k j ≤ o) ∧
     (inst.a k i ≠ 0 ∧ inst.a k j = 0 → T k * inst.aQ k i ≤ o))) ∧
  o ≤ ∑ k in Finset.range inst.numTests, xorTerm inst T x i j k ∧
  1 ≤ o

instance pairSat.dec (inst : IPInstance) (relax : Bool) (T : ℕ → ℚ)
    (o : ℚ) (x : ℕ → ℚ) (i j : ℕ) : Decidable (pairSat inst relax T o x i j) := by
  unfold pairSat; infer_instance

/-- Satisfaction of the whole model of `build_constraints`: every test
variable is in its domain and every unordered disease pair `(i, j)` with
`i < j < numDiseases` satisfies its gadget constraints.  `orv i j` is the
pair's `or_var`, `xorv i j k` its `xor_var` for test `k` (only constrained
where the code creates one). -/
def ModelFeasible (inst : IPInstance) (relax : Bool) (T : ℕ → ℚ)
    (orv : ℕ → ℕ → ℚ) (xorv : ℕ → ℕ → ℕ → ℚ) : Prop :=
  (∀ k, k < inst.numTests → varOK relax (T k)) ∧
  (∀ j, j < inst.numDiseases → ∀ i, i < j →
    pairSat inst relax T (orv i j) (xorv i j) i j)

instance ModelFeasible.dec (inst : IPInstance) (relax : Bool) (T : ℕ → ℚ)
    (orv : ℕ → ℕ → ℚ) (xorv : ℕ → ℕ → ℕ → ℚ) :
    Decidable (ModelFeasible inst relax T orv xorv) := by
  unfold ModelFeasible; infer_instance

/-! #### Integer-scaled feasibility certificates

To check a concrete (possibly fractional) point against the model by
computation, the point is presented as integer numerators over one common
positive denominator `d`; every constraint of `build_constraints` is linear,
so clearing the denominator turns it into the integer constraint below.
`ModelFeasible_of_scaled` maps such a certificate back to the model. -/

/-- `xorTerm` with the common denominator cleared. -/
def xorTermInt (inst : IPInstance) (Tn : ℕ → ℤ) (x : ℕ → ℤ) (i j k : ℕ) : ℤ :=
  if inst.a k i ≠ 0 ∧ inst.a k j ≠ 0 then x k
  else if inst.a k i = 0 ∧ inst.a k j ≠ 0 then Tn k * inst.a k j
  else if inst.a k i ≠ 0 ∧ inst.a k j = 0 then Tn k * inst.a k i
  else 0

/-- `varOK` with the common denominator `d` cleared. -/
def varOKScaled : Bool → ℤ → ℤ → Prop
  | true, d, q => 0 ≤ q ∧ q ≤ d
  | false, d, q => q = 0 ∨ q = d

instance varOKScaled.dec (relax : Bool) (d q : ℤ) : Decidable (varOKScaled relax d q) :=
  match relax with
  | true => inferInstanceAs (Decidable (0 ≤ q ∧ q ≤ d))
  | false => inferInstanceAs (Decidable (q = 0 ∨ q = d))

/-- `pairSat` with the common denominator `d` cleared. -/
def pairSatScaled (inst : IPInstance) (relax : Bool) (d : ℤ) (Tn : ℕ → ℤ)
    (o : ℤ) (x : ℕ → ℤ) (i j : ℕ) : Prop :=
  varOKScaled relax d o ∧
  (∀ k, k < inst.numTests →
    ((inst.a k i ≠ 0 ∧ inst.a k j ≠ 0 →
       varOKScaled relax d (x k) ∧
       x k ≤ Tn k * inst.a k i + Tn k * inst.a k j ∧
       Tn k * inst.a k i - Tn k * inst.a k j ≤ x k ∧
       -(Tn k * inst.a k i) + Tn k * inst.a k j ≤ x k ∧
       x k ≤ 2 * d - Tn k * inst.a k i - Tn k * inst.a k j ∧
       x k ≤ o) ∧
     (inst.a k i = 0 ∧ inst.a k j ≠ 0 → Tn k * inst.a k j ≤ o) ∧
     (inst.a k i ≠ 0 ∧ inst.a k j = 0 → Tn k * inst.a k i ≤ o))) ∧
  o ≤ ∑ k in Finset.range inst.numTests, xorTermInt inst Tn x i j k ∧
  d ≤ o

instance pairSatScaled.dec (inst : IPInstance) (relax : Bool) (d : ℤ) (Tn : ℕ → ℤ)
    (o : ℤ) (x : ℕ → ℤ) (i j : ℕ) : Decidable (pairSatScaled inst relax d Tn o x i j) := by
  unfold pairSatScaled; infer_instance

/-- `ModelFeasible` with the common denominator `d` cleared. -/
def ModelFeasibleScaled (inst : IPInstance) (relax : Bool) (d : ℤ) (Tn : ℕ → ℤ)
    (orn : ℕ → ℕ → ℤ) (xorn : ℕ → ℕ → ℕ → ℤ) : Prop :=
  (∀ k, k < inst.numTests → varOKScaled relax d (Tn k)) ∧
  (∀ j, j < inst.numDiseases → ∀ i, i < j →
    pairSatScaled inst relax d Tn (orn i j) (xorn i j) i j)

instance ModelFeasibleScaled.dec (inst : IPInstance) (relax : Bool) (d : ℤ) (Tn : ℕ → ℤ)
    (orn : ℕ → ℕ → ℤ) (xorn : ℕ → ℕ → ℕ → ℤ) :
    Decidable (ModelFeasibleScaled inst relax d Tn orn xorn) := by
  unfold ModelFeasibleScaled; infer_instance

/-- Divide an integer certificate component by the common denominator. -/
def scale1 (d : ℤ) (f : ℕ → ℤ) : ℕ → ℚ := fun k => (f k : ℚ) / (d : ℚ)

/-- Divide an integer certificate component by the common denominator. -/
def scale2 (d : ℤ) (f : ℕ → ℕ → ℤ) : ℕ → ℕ → ℚ := fun i j => (f i j : ℚ) / (d : ℚ)

/-- Divide an integer certificate component by the common denominator. -/
def scale3 (d : ℤ) (f : ℕ → ℕ → ℕ → ℤ) : ℕ → ℕ → ℕ → ℚ :=
  fun i j k => (f i j k : ℚ) / (d : ℚ)

/-- The minimized objective `sum(costOfTest[i] * tests[i])`. -/
def objective (inst : IPInstance) (T : ℕ → ℚ) : ℚ :=
  ∑ k in Finset.range inst.numTests, inst.cost k * T k

/-- The `relax_model` argument `IPInstance.__init__` passes to
`build_constraints`: always `True`, so the model handed to the solver is the
continuous relaxation produced by `LinearRelaxer.make_relaxed_model`. -/
def initRelaxFlag : Bool := true

/-- Semantics of `IPInstance.solve` on the model built by `__init__`:
`model.solve()` followed by `model.objective_value` returns `v` exactly when
`v` is the least objective value over the feasible region of the relaxed
model (CPLEX, modelled as an exact LP solver).  On an infeasible model no
value is returned (`objective_value` raises instead). -/
def SolveReturns (inst : IPInstance) (v : ℚ) : Prop :=
  (∃ T orv xorv, ModelFeasible inst initRelaxFlag T orv xorv ∧ objective inst T = v) ∧
  (∀ T orv xorv, ModelFeasible inst initRelaxFlag T orv xorv → v ≤ objective inst T)

/-- `diff(i,j)`: the tests whose response differs between diseases `i` and
`j`. -/
def diffSet (inst : IPInstance) (i j : ℕ) : Finset ℕ :=
  (Finset.range inst.numTests).filter (fun k => inst.a k i ≠ inst.a k j)

/-- A selection of tests distinguishes every disease pair: for each pair
`(i, j)` some selected test lies in `diff(i,j)`. -/
def Covers (inst : IPInstance) (S : Finset ℕ) : Prop :=
  ∀ j, j < inst.numDiseases → ∀ i, i < j → ∃ k ∈ diffSet inst i j, k ∈ S

instance Covers.dec (inst : IPInstance) (S : Finset ℕ) : Decidable (Covers inst S) := by
  unfold Covers; infer_instance

/-- Total cost of a selection of tests. -/
def selCost (inst : IPInstance) (S : Finset ℕ) : ℚ :=
  ∑ k in S, inst.cost k

/-- All feasible test subsets (brute-force enumeration over the binary
selection subsets). -/
def feasibleSelections (inst : IPInstance) : Finset (Finset ℕ) :=
  (Finset.range inst.numTests).powerset.filter (fun S => Covers inst S)

/-- `v` is the exact integer optimum obtained by brute force: it is the cost
of some feasible selection, and no feasible selection is cheaper. -/
def IsBruteOpt (inst : IPInstance) (v : ℚ) : Prop :=
  v ∈ (feasibleSelections inst).image (selCost inst) ∧
  ∀ w ∈ (feasibleSelections inst).image (selCost inst), v ≤ w

instance IsBruteOpt.dec (inst : IPInstance) (v : ℚ) : Decidable (IsBruteOpt inst v) := by
  unfold IsBruteOpt; infer_instance

/-- The minimum-cost feasible selections of an instance. -/
def optimalSelections (inst : IPInstance) : Finset (Finset ℕ) :=
  (feasibleSelections inst).filter
    (fun S => ∀ S' ∈ feasibleSelections inst, selCost inst S ≤ selCost inst S')

/-- Objective values attained by integer-feasible points of the XOR-gadget
model (the unrelaxed model of `build_constraints`). -/
def gadgetVals (inst : IPInstance) : Set ℚ :=
  {v | ∃ T orv xorv, ModelFeasible inst false T orv xorv ∧ objective inst T = v}

/-- Objective values attained by selections satisfying the cardinality
formulation `sum(T_k for k in diff(i,j)) >= 1` of §4.2 of the spec. -/
def cardVals (inst : IPInstance) : Set ℚ :=
  {v | ∃ S : Finset ℕ, S ⊆ Finset.range inst.numTests ∧ Covers inst S ∧ selCost inst S = v}

/-- 0/1 indicator assignment of a selection. -/
def indT (S : Finset ℕ) : ℕ → ℚ := fun k => if k ∈ S then 1 else 0

/-- Constant-one assignment for the `or_var`s. -/
def orOneF : ℕ → ℕ → ℚ := fun _ _ => 1

/-- Constant-zero assignment for the `xor_var`s. -/
def xorZeroF : ℕ → ℕ → ℕ → ℚ := fun _ _ _ => 0

/-- The record printed by `main` (`sol_dict`): instance name, elapsed time,
`str(result)` and the `Solution` field. -/
structure SolDict where
  instanceName : String
  time : String
  result : ℚ
  solution : String

/-- `main` builds `sol_dict` with the solver's objective value and the
constant status `"OPT"`. -/
def mainRecord (name time : String) (result : ℚ) : SolDict :=
  ⟨name, time, result, "OPT"⟩

/-! ### The parser `data_parse`

`data_parse` reads the file line by line (`fl.readline()`, which yields `""`
past end of file), strips and splits on whitespace, converts tokens with
`int` / `float`, fills the `numTests × numDiseases` integer matrix row by row
(NumPy assignment `A[i, :] = ...`, which also broadcasts a single value
across a row), and catches every exception, printing a message and calling
`exit(1)`.  The `exit(1)` path is modelled by `none`.  Python's `int`/`float`
are modelled on plain decimal notation (the format the file uses); exotic
float spellings (exponents, `inf`, `nan`) do not occur in the claims. -/

/-- Whitespace as used by `str.strip()` / `str.split()`. -/
def isWS (c : Char) : Bool := c = ' ' ∨ c = '\t' ∨ c = '\n' ∨ c = '\r'

/-- Drop leading whitespace characters. -/
def dropLeadWS : List Char → List Char
  | [] => []
  | c :: cs => if isWS c then dropLeadWS cs else c :: cs

/-- Python `str.strip()`. -/
def pyStrip (cs : List Char) : List Char :=
  ((dropLeadWS cs).reverse |> dropLeadWS).reverse

/-- Helper for `pyFields`: accumulate the current token (reversed). -/
def pyFieldsAux : List Char → List Char → List (List Char)
  | [], acc => if acc = [] then [] else [acc.reverse]
  | c :: cs, acc =>
    if isWS c then
      if acc = [] then pyFieldsAux cs [] else acc.reverse :: pyFieldsAux cs []
    else pyFieldsAux cs (c :: acc)

/-- Python `str.split()` with no argument: split on whitespace runs, no empty
tokens. -/
def pyFields (cs : List Char) : List (List Char) := pyFieldsAux cs []

/-- Decimal digit value of a character. -/
def digitVal (c : Char) : Option ℕ :=
  if '0' ≤ c ∧ c ≤ '9' then some (c.toNat - '0'.toNat) else none

/-- Read a digit string left to right. -/
def digitsToNatAux : List Char → ℕ → Option ℕ
  | [], acc => some acc
  | c :: cs, acc =>
    match digitVal c with
    | some d => digitsToNatAux cs (acc * 10 + d)
    | none => none

/-- Python `int(s)` on decimal notation: optional sign, then digits. -/
def parsePyInt (cs : List Char) : Option ℤ :=
  match pyStrip cs with
  | [] => none
  | '-' :: rest =>
    if rest = [] then none else (digitsToNatAux rest 0).map (fun n => -(n : ℤ))
  | '+' :: rest =>
    if rest = [] then none else (digitsToNatAux rest 0).map (fun n => (n : ℤ))
  | l => (digitsToNatAux l 0).map (fun n => (n : ℤ))

/-- Split an unsigned decimal at the first `'.'` (if any). -/
def splitDot : List Char → List Char × Option (List Char)
  | [] => ([], none)
  | '.' :: rest => ([], some rest)
  | c :: rest =>
    let p := splitDot rest
    (c :: p.1, p.2)

/-- Unsigned part of Python `float(s)` on decimal notation: `d+`, `d+.d*` or
`.d+` (a second `'.'` fails inside the digit scan). -/
def parseUnsignedFloat (cs : List Char) : Option ℚ :=
  match splitDot cs with
  | (ip, none) =>
    if ip = [] then none else (digitsToNatAux ip 0).map (fun n => (n : ℚ))
  | (ip, some fp) =>
    if ip = [] ∧ fp = [] then none
    else
      match digitsToNatAux ip 0, digitsToNatAux fp 0 with
      | some n, some f => some ((n : ℚ) + (f : ℚ) / (10 ^ fp.length))
      | _, _ => none

/-- Python `float(s)` on decimal notation. -/
def parsePyFloat (cs : List Char) : Option ℚ :=
  match pyStrip cs with
  | '-' :: rest => (parseUnsignedFloat rest).map (fun q => -q)
  | '+' :: rest => parseUnsignedFloat rest
  | l => parseUnsignedFloat l

/-- `fl.readline()` for line `k`: the empty string past end of file. -/
def pyReadline (lines : List String) (k : ℕ) : List Char :=
  (lines.getD k "").data

/-- NumPy row assignment `A[i, :] = np.array(vals)` into a row of length `m`:
exact length match, or broadcast of a single value; any other length raises
(a `ValueError` caught by `data_parse`). -/
def assignRow (vals : List ℤ) (m : ℕ) : Option (List ℤ) :=
  if vals.length = m then some vals
  else if vals.length = 1 then some (List.replicate m (vals.getD 0 0))
  else none

/-- The matrix-filling loop `for i in range(0, numTests)`: read line `idx`,
split, convert each token with `int`, assign into row `i`. -/
def parseRowsAux (lines : List String) (m : ℕ) : ℕ → ℕ → Option (List (List ℤ))
  | _, 0 => some []
  | idx, cnt + 1 => do
    let vals ← (pyFields (pyReadline lines idx)).mapM parsePyInt
    let row ← assignRow vals m
    let rest ← parseRowsAux lines m (idx + 1) cnt
    return row :: rest

/-- `data_parse`: the two header integers, the cost line converted with
`float`, the `np.zeros((numTests, numDiseases))` allocation (which raises on a
negative dimension) and the row loop.  `none` models the catch-all
`except Exception` branch that prints and calls `exit(1)`. -/
def data_parse (lines : List String) : Option (ℤ × ℤ × List ℚ × List (List ℤ)) := do
  let numTests ← parsePyInt (pyReadline lines 0)
  let numDiseases ← parsePyInt (pyReadline lines 1)
  let costOfTest ← (pyFields (pyStrip (pyReadline lines 2))).mapM parsePyFloat
  if numTests < 0 ∨ numDiseases < 0 then none
  else do
    let A ← parseRowsAux lines numDiseases.toNat 3 numTests.toNat
    return (numTests, numDiseases, costOfTest, A)

/-- Packaging of the parsed values into the fields `IPInstance.__init__`
stores before calling `build_constraints(True, True)`. -/
def toInstance : ℤ × ℤ × List ℚ × List (List ℤ) → IPInstance
  | (n, m, c, A) => ⟨n.toNat, m.toNat, c, A⟩

/-- `IPInstance.__init__` as far as the stored data is concerned: parse, then
keep the parsed fields (`none` when `data_parse` terminated the process). -/
def initInstance (lines : List String) : Option IPInstance :=
  (data_parse lines).map toInstance

/-! ### Concrete instances used in the claims -/

/-- The worked example of §8 of the spec: `numTests=3`, `numDiseases=2`,
`cost=[1,2,3]`, `A=[[1,0],[1,1],[0,1]]`. -/
def ex7 : IPInstance := ⟨3, 2, [1, 2, 3], [[1, 0], [1, 1], [0, 1]]⟩

/-- A well-formed feasible instance with an integrality gap: both diseases
respond to test 0 (so the XOR gadget on test 0 degenerates under relaxation),
only test 1 distinguishes them, `cost=[1,10]`. -/
def gapEx : IPInstance := ⟨2, 2, [1, 10], [[1, 1], [1, 0]]⟩

/-- Two identical disease columns sharing a nonzero row: `diff(0,1)` is empty
(the instance is infeasible as a covering problem), yet the relaxed gadget
model is satisfiable. -/
def ex3inf : IPInstance := ⟨1, 2, [1], [[1, 1]]⟩

/-- Two identical all-zero disease columns: the pair contributes no
`xor_vars`, so `or_var >= 1` and `or_var <= sum([])` clash even in the
relaxation. -/
def exZero : IPInstance := ⟨1, 2, [1], [[0, 0]]⟩

/-- An input file whose cost line has one token although `numTests = 2`:
`data_parse` accepts it unchanged. -/
def badLines : List String := ["2", "2", "1", "1 0", "0 1"]

/-! ## Basic lemmas -/

/-- In a well-formed instance every in-range matrix entry is 0 or 1. -/
lemma a_mem_01 (inst : IPInstance) (hwf : WellFormed inst) {k i : ℕ}
    (hk : k < inst.numTests) (hi : i < inst.numDiseases) :
    inst.a k i = 0 ∨ inst.a k i = 1 := by
  obtain ⟨-, hlen, hrows, h01, -⟩ := hwf
  have hk' : k < inst.A.length := by omega
  have hrow : inst.A.getD k [] = inst.A[k] := List.getD_eq_getElem inst.A [] hk'
  have hmem : inst.A[k] ∈ inst.A := List.getElem_mem hk'
  have hi' : i < (inst.A[k]).length := by rw [hrows _ hmem]; exact hi
  have hel : (inst.A[k]).getD i 0 = (inst.A[k])[i] := List.getD_eq_getElem _ 0 hi'
  have : (inst.A[k])[i] ∈ inst.A[k] := List.getElem_mem hi'
  unfold IPInstance.a
  rw [hrow, hel]
  exact h01 _ hmem _ this

/-- Positivity of the denominator, cast into `ℚ`. -/
lemma cast_d_pos {d : ℤ} (hd : 0 < d) : (0 : ℚ) < (d : ℚ) := by exact_mod_cast hd

/-- Dividing an integer inequality by a positive denominator. -/
lemma scale_le {d : ℤ} (hd : 0 < d) {p q : ℤ} (h : p ≤ q) :
    (p : ℚ) / (d : ℚ) ≤ (q : ℚ) / (d : ℚ) := by
  have hd' := cast_d_pos hd
  have h' : (p : ℚ) ≤ (q : ℚ) := by exact_mod_cast h
  gcongr

/-- A scaled variable-domain certificate yields the model's domain. -/
lemma varOK_scale {relax : Bool} {d q : ℤ} (hd : 0 < d) (h : varOKScaled relax d q) :
    varOK relax ((q : ℚ) / (d : ℚ)) := by
  have hd' := cast_d_pos hd
  cases relax with
  | false =>
    rcases h with h | h
    · exact Or.inl (by rw [h]; simp)
    · exact Or.inr (by rw [h]; exact div_self hd'.ne')
  | true =>
    obtain ⟨h1, h2⟩ := h
    exact ⟨div_nonneg (by exact_mod_cast h1) hd'.le,
      (div_le_one hd').mpr (by exact_mod_cast h2)⟩

/-- `xorTerm` of a scaled point is the scaled `xorTermInt`. -/
lemma xorTerm_scale (inst : IPInstance) {d : ℤ} (hd : 0 < d) (Tn : ℕ → ℤ)
    (xorn : ℕ → ℕ → ℕ → ℤ) (i j k : ℕ) :
    xorTerm inst (scale1 d Tn) (scale3 d xorn i j) i j k
      = (xorTermInt inst Tn (xorn i j) i j k : ℚ) / (d : ℚ) := by
  have hd' := (cast_d_pos hd).ne'
  unfold xorTerm xorTermInt scale1 scale3 IPInstance.aQ
  split_ifs <;> push_cast <;> field_simp

/-- Soundness of integer-scaled certificates: a point whose components are
`·/d` of a `ModelFeasibleScaled` certificate satisfies the model built by
`build_constraints`. -/
lemma ModelFeasible_of_scaled (inst : IPInstance) (relax : Bool) {d : ℤ} (hd : 0 < d)
    (Tn : ℕ → ℤ) (orn : ℕ → ℕ → ℤ) (xorn : ℕ → ℕ → ℕ → ℤ)
    (h : ModelFeasibleScaled inst relax d Tn orn xorn) :
    ModelFeasible inst relax (scale1 d Tn) (scale2 d orn) (scale3 d xorn) := by
  obtain ⟨hT, hp⟩ := h
  have hd' := cast_d_pos hd
  constructor
  · intro k hk
    exact varOK_scale hd (hT k hk)
  · intro j hj i hij
    obtain ⟨ho, hks, hsum, hone⟩ := hp j hj i hij
    refine ⟨varOK_scale hd ho, ?_, ?_, ?_⟩
    · intro k hk
      obtain ⟨h1, h2, h3⟩ := hks k hk
      refine ⟨fun hcond => ?_, fun hcond => ?_, fun hcond => ?_⟩
      · obtain ⟨ha, hb, hc, hd2, he, hf⟩ := h1 hcond
        refine ⟨varOK_scale hd ha, ?_, ?_, ?_, ?_, scale_le hd hf⟩
        · have heq : scale1 d Tn k * inst.aQ k i + scale1 d Tn k * inst.aQ k j
              = ((Tn k * inst.a k i + Tn k * inst.a k j : ℤ) : ℚ) / (d : ℚ) := by
            unfold scale1 IPInstance.aQ; push_cast; ring
          rw [heq]; exact scale_le hd hb
        · have heq : scale1 d Tn k * inst.aQ k i - scale1 d Tn k * inst.aQ k j
              = ((Tn k * inst.a k i - Tn k * inst.a k j : ℤ) : ℚ) / (d : ℚ) := by
            unfold scale1 IPInstance.aQ; push_cast; ring
          rw [heq]; exact scale_le hd hc
        · have heq : -(scale1 d Tn k * inst.aQ k i) + scale1 d Tn k * inst.aQ k j
              = ((-(Tn k * inst.a k i) + Tn k * inst.a k j : ℤ) : ℚ) / (d : ℚ) := by
            unfold scale1 IPInstance.aQ; push_cast; ring
          rw [heq]; exact scale_le hd hd2
        · have heq : 2 - scale1 d Tn k * inst.aQ k i - scale1 d Tn k * inst.aQ k j
              = ((2 * d - Tn k * inst.a k i - Tn k * inst.a k j : ℤ) : ℚ) / (d : ℚ) := by
            unfold scale1 IPInstance.aQ
            push_cast
            field_simp
            try ring
          rw [heq]; exact scale_le hd he
      · have heq : scale1 d Tn k * inst.aQ k j
            = ((Tn k * inst.a k j : ℤ) : ℚ) / (d : ℚ) := by
          unfold scale1 IPInstance.aQ; push_cast; ring
        rw [heq]; exact scale_le hd (h2 hcond)
      · have heq : scale1 d Tn k * inst.aQ k i
            = ((Tn k * inst.a k i : ℤ) : ℚ) / (d : ℚ) := by
          unfold scale1 IPInstance.aQ; push_cast; ring
        rw [heq]; exact scale_le hd (h3 hcond)
    · have heq : ∑ k in Finset.range inst.numTests,
          xorTerm inst (scale1 d Tn) (scale3 d xorn i j) i j k
          = ((∑ k in Finset.range inst.numTests, xorTermInt inst Tn (xorn i j) i j k : ℤ) : ℚ)
            / (d : ℚ) :=
        calc ∑ k in Finset.range inst.numTests,
            xorTerm inst (scale1 d Tn) (scale3 d xorn i j) i j k
            = ∑ k in Finset.range inst.numTests,
              (xorTermInt inst Tn (xorn i j) i j k : ℚ) / (d : ℚ) :=
              Finset.sum_congr rfl (fun k _ => xorTerm_scale inst hd Tn xorn i j k)
          _ = (∑ k in Finset.range inst.numTests,
                (xorTermInt inst Tn (xorn i j) i j k : ℚ)) / (d : ℚ) :=
              (Finset.sum_div _ _ _).symm
          _ = ((∑ k in Finset.range inst.numTests,
                xorTermInt inst Tn (xorn i j) i j k : ℤ) : ℚ) / (d : ℚ) := by
              push_cast
              ring
      rw [heq]
      exact scale_le hd hsum
    · have h1 : (1 : ℚ) = (d : ℚ) / (d : ℚ) := (div_self hd'.ne').symm
      rw [h1]
      exact scale_le hd hone

/-- Expansion of a one-term range sum. -/
lemma sum_range_one_q (f : ℕ → ℚ) : ∑ k in Finset.range 1, f k = f 0 := by
  rw [show (1 : ℕ) = 0 + 1 from rfl, Finset.sum_range_succ, Finset.sum_range_zero, zero_add]

/-- Expansion of a two-term range sum. -/
lemma sum_range_two_q (f : ℕ → ℚ) : ∑ k in Finset.range 2, f k = f 0 + f 1 := by
  rw [show (2 : ℕ) = 1 + 1 from rfl, Finset.sum_range_succ, sum_range_one_q]

/-- Expansion of a three-term range sum. -/
lemma sum_range_three_q (f : ℕ → ℚ) : ∑ k in Finset.range 3, f k = f 0 + f 1 + f 2 := by
  rw [show (3 : ℕ) = 2 + 1 from rfl, Finset.sum_range_succ, sum_range_two_q]

/-- On `gapEx` the solver returns the relaxed optimum `1/2`: the gadget on
test 0 (where both diseases respond) admits `T 0 = 1/2`, `xor = or = 1`. -/
lemma solve_gapEx : SolveReturns gapEx (1/2) := by
  constructor
  · refine ⟨scale1 2 (fun k => if k = 0 then 1 else 0), scale2 2 (fun _ _ => 2),
      scale3 2 (fun _ _ _ => 2),
      ModelFeasible_of_scaled gapEx initRelaxFlag (by norm_num) _ _ _ (by decide), ?_⟩
    unfold objective
    rw [show gapEx.numTests = 2 from rfl, sum_range_two_q,
      show gapEx.cost 0 = 1 from rfl, show gapEx.cost 1 = 10 from rfl]
    unfold scale1
    norm_num
  · rintro T orv xorv ⟨hT, hpair⟩
    have hp := hpair 1 (by decide) 0 (by decide)
    unfold pairSat at hp
    obtain ⟨-, hks, hsum, hone⟩ := hp
    have hT1 : 0 ≤ T 1 ∧ T 1 ≤ 1 := hT 1 (by decide)
    have hx := (hks 0 (by decide)).1 (by decide)
    have hxb : xorv 0 1 0 ≤ T 0 * gapEx.aQ 0 0 + T 0 * gapEx.aQ 0 1 := hx.2.1
    have hs : ∑ k in Finset.range gapEx.numTests, xorTerm gapEx T (xorv 0 1) 0 1 k
        = xorv 0 1 0 + T 1 * gapEx.aQ 1 0 := by
      rw [show gapEx.numTests = 2 from rfl, sum_range_two_q]
      rfl
    rw [hs] at hsum
    have ha00 : gapEx.aQ 0 0 = 1 := by
      norm_num [IPInstance.aQ, show gapEx.a 0 0 = 1 from rfl]
    have ha01 : gapEx.aQ 0 1 = 1 := by
      norm_num [IPInstance.aQ, show gapEx.a 0 1 = 1 from rfl]
    have ha10 : gapEx.aQ 1 0 = 1 := by
      norm_num [IPInstance.aQ, show gapEx.a 1 0 = 1 from rfl]
    rw [ha00, ha01] at hxb
    rw [ha10] at hsum
    unfold objective
    rw [show gapEx.numTests = 2 from rfl, sum_range_two_q,
      show gapEx.cost 0 = 1 from rfl, show gapEx.cost 1 = 10 from rfl]
    linarith [hT1.1]

/-- On `ex3inf` (identical disease columns sharing a nonzero row) the relaxed
model is feasible and the solver returns `1/2`. -/
lemma solve_ex3inf : SolveReturns ex3inf (1/2) := by
  constructor
  · refine ⟨scale1 2 (fun _ => 1), scale2 2 (fun _ _ => 2), scale3 2 (fun _ _ _ => 2),
      ModelFeasible_of_scaled ex3inf initRelaxFlag (by norm_num) _ _ _ (by decide), ?_⟩
    unfold objective
    rw [show ex3inf.numTests = 1 from rfl, sum_range_one_q,
      show ex3inf.cost 0 = 1 from rfl]
    unfold scale1
    norm_num
  · rintro T orv xorv ⟨hT, hpair⟩
    have hp := hpair 1 (by decide) 0 (by decide)
    unfold pairSat at hp
    obtain ⟨-, hks, hsum, hone⟩ := hp
    have hx := (hks 0 (by decide)).1 (by decide)
    have hxb : xorv 0 1 0 ≤ T 0 * ex3inf.aQ 0 0 + T 0 * ex3inf.aQ 0 1 := hx.2.1
    have hs : ∑ k in Finset.range ex3inf.numTests, xorTerm ex3inf T (xorv 0 1) 0 1 k
        = xorv 0 1 0 := by
      rw [show ex3inf.numTests = 1 from rfl, sum_range_one_q]
      rfl
    rw [hs] at hsum
    have ha00 : ex3inf.aQ 0 0 = 1 := by
      norm_num [IPInstance.aQ, show ex3inf.a 0 0 = 1 from rfl]
    have ha01 : ex3inf.aQ 0 1 = 1 := by
      norm_num [IPInstance.aQ, show ex3inf.a 0 1 = 1 from rfl]
    rw [ha00, ha01] at hxb
    unfold objective
    rw [show ex3inf.numTests = 1 from rfl, sum_range_one_q,
      show ex3inf.cost 0 = 1 from rfl]
    linarith

/-- On the worked example `ex7` the solver returns `1`, attained by selecting
test 0 outright. -/
lemma solve_ex7 : SolveReturns ex7 1 := by
  constructor
  · refine ⟨scale1 1 (fun k => if k = 0 then 1 else 0), scale2 1 (fun _ _ => 1),
      scale3 1 (fun _ _ _ => 0),
      ModelFeasible_of_scaled ex7 initRelaxFlag (by norm_num) _ _ _ (by decide), ?_⟩
    unfold objective
    rw [show ex7.numTests = 3 from rfl, sum_range_three_q,
      show ex7.cost 0 = 1 from rfl, show ex7.cost 1 = 2 from rfl,
      show ex7.cost 2 = 3 from rfl]
    unfold scale1
    norm_num
  · rintro T orv xorv ⟨hT, hpair⟩
    have hp := hpair 1 (by decide) 0 (by decide)
    unfold pairSat at hp
    obtain ⟨-, hks, hsum, hone⟩ := hp
    have hT2 : 0 ≤ T 2 ∧ T 2 ≤ 1 := hT 2 (by decide)
    have hx := (hks 1 (by decide)).1 (by decide)
    have hxb : xorv 0 1 1 ≤ T 1 * ex7.aQ 1 0 + T 1 * ex7.aQ 1 1 := hx.2.1
    have hs : ∑ k in Finset.range ex7.numTests, xorTerm ex7 T (xorv 0 1) 0 1 k
        = T 0 * ex7.aQ 0 0 + xorv 0 1 1 + T 2 * ex7.aQ 2 1 := by
      rw [show ex7.numTests = 3 from rfl, sum_range_three_q]
      rfl
    rw [hs] at hsum
    have ha00 : ex7.aQ 0 0 = 1 := by
      norm_num [IPInstance.aQ, show ex7.a 0 0 = 1 from rfl]
    have ha10 : ex7.aQ 1 0 = 1 := by
      norm_num [IPInstance.aQ, show ex7.a 1 0 = 1 from rfl]
    have ha11 : ex7.aQ 1 1 = 1 := by
      norm_num [IPInstance.aQ, show ex7.a 1 1 = 1 from rfl]
    have ha21 : ex7.aQ 2 1 = 1 := by
      norm_num [IPInstance.aQ, show ex7.a 2 1 = 1 from rfl]
    rw [ha00, ha21] at hsum
    rw [ha10, ha11] at hxb
    unfold objective
    rw [show ex7.numTests = 3 from rfl, sum_range_three_q,
      show ex7.cost 0 = 1 from rfl, show ex7.cost 1 = 2 from rfl,
      show ex7.cost 2 = 3 from rfl]
    linarith [hT2.1]

/-- A nonzero in-range entry of a well-formed matrix is 1. -/
lemma a_eq_one (inst : IPInstance) (hwf : WellFormed inst) {k i : ℕ}
    (hk : k < inst.numTests) (hi : i < inst.numDiseases) (h : inst.a k i ≠ 0) :
    inst.a k i = 1 := by
  rcases a_mem_01 inst hwf hk hi with h0 | h1
  · exact absurd h0 h
  · exact h1

/-- `aQ` of a nonzero in-range entry of a well-formed matrix. -/
lemma aQ_eq_one (inst : IPInstance) (hwf : WellFormed inst) {k i : ℕ}
    (hk : k < inst.numTests) (hi : i < inst.numDiseases) (h : inst.a k i ≠ 0) :
    inst.aQ k i = 1 := by
  unfold IPInstance.aQ
  rw [a_eq_one inst hwf hk hi h]
  norm_num

/-- `aQ` of a zero entry. -/
lemma aQ_eq_zero (inst : IPInstance) {k i : ℕ} (h : inst.a k i = 0) :
    inst.aQ k i = 0 := by
  unfold IPInstance.aQ
  rw [h]
  norm_num

/-- An integral variable value satisfies the relaxed bounds. -/
lemma varOK_true_of_false {q : ℚ} (h : varOK false q) : varOK true q := by
  rcases h with h | h <;> rw [h] <;> exact ⟨by norm_num, by norm_num⟩

/-- Integer-feasible points of the unrelaxed model are feasible for the
relaxed model. -/
lemma relax_of_int (inst : IPInstance) (T : ℕ → ℚ) (orv : ℕ → ℕ → ℚ)
    (xorv : ℕ → ℕ → ℕ → ℚ) (h : ModelFeasible inst false T orv xorv) :
    ModelFeasible inst true T orv xorv := by
  obtain ⟨hT, hp⟩ := h
  refine ⟨fun k hk => varOK_true_of_false (hT k hk), fun j hj i hij => ?_⟩
  obtain ⟨ho, hks, hsum, hone⟩ := hp j hj i hij
  refine ⟨varOK_true_of_false ho, ?_, hsum, hone⟩
  intro k hk
  obtain ⟨h1, h2, h3⟩ := hks k hk
  exact ⟨fun hc => ⟨varOK_true_of_false (h1 hc).1, (h1 hc).2⟩, h2, h3⟩

/-- Objective of the indicator point of a selection. -/
lemma objective_indT (inst : IPInstance) {S : Finset ℕ}
    (hsub : S ⊆ Finset.range inst.numTests) :
    objective inst (indT S) = selCost inst S := by
  unfold objective indT selCost
  have h1 : ∀ k ∈ Finset.range inst.numTests,
      inst.cost k * (if k ∈ S then (1 : ℚ) else 0)
        = if k ∈ S then inst.cost k else 0 := by
    intro k _
    split_ifs <;> ring
  rw [Finset.sum_congr rfl h1, Finset.sum_ite_mem,
    Finset.inter_eq_right.mpr hsub]

/-- Membership in `diff(i,j)`. -/
lemma mem_diffSet {inst : IPInstance} {k i j : ℕ} :
    k ∈ diffSet inst i j ↔ k < inst.numTests ∧ inst.a k i ≠ inst.a k j := by
  unfold diffSet
  rw [Finset.mem_filter, Finset.mem_range]

/-- Forward direction of the gadget/cardinality equivalence: an
integer-feasible point of the unrelaxed model selects, for every disease
pair, at least one distinguishing test. -/
lemma int_feasible_covers (inst : IPInstance) (hwf : WellFormed inst)
    (T : ℕ → ℚ) (orv : ℕ → ℕ → ℚ) (xorv : ℕ → ℕ → ℕ → ℚ)
    (h : ModelFeasible inst false T orv xorv) :
    ∀ j, j < inst.numDiseases → ∀ i, i < j → ∃ k ∈ diffSet inst i j, T k = 1 := by
  obtain ⟨hT, hp⟩ := h
  intro j hj i hij
  have hi : i < inst.numDiseases := lt_trans hij hj
  obtain ⟨ho, hks, hsum, hone⟩ := hp j hj i hij
  have hbound : ∀ k ∈ Finset.range inst.numTests,
      xorTerm inst T (xorv i j) i j k ≤ (if inst.a k i ≠ inst.a k j then T k else 0) := by
    intro k hk
    have hk' : k < inst.numTests := Finset.mem_range.mp hk
    rcases a_mem_01 inst hwf hk' hi with hai | hai <;>
      rcases a_mem_01 inst hwf hk' hj with haj | haj
    · unfold xorTerm
      rw [if_neg (by simp [hai]), if_neg (by simp [haj]), if_neg (by simp [hai]),
        if_neg (by simp [hai, haj])]
    · unfold xorTerm
      rw [if_neg (by simp [hai]), if_pos ⟨hai, by simp [haj]⟩,
        aQ_eq_one inst hwf hk' hj (by simp [haj]), if_pos (by simp [hai, haj]), mul_one]
    · unfold xorTerm
      rw [if_neg (by simp [haj]), if_neg (by simp [hai]), if_pos ⟨by simp [hai], haj⟩,
        aQ_eq_one inst hwf hk' hi (by simp [hai]), if_pos (by simp [hai, haj]), mul_one]
    · have hx := (hks k hk').1 ⟨by simp [hai], by simp [haj]⟩
      have hb := hx.2.1
      have he := hx.2.2.2.2.1
      rw [aQ_eq_one inst hwf hk' hi (by simp [hai]),
        aQ_eq_one inst hwf hk' hj (by simp [haj])] at hb he
      have hx0 : xorv i j k ≤ 0 := by
        rcases (hT k hk' : T k = 0 ∨ T k = 1) with h | h <;> rw [h] at hb he <;> linarith
      unfold xorTerm
      rw [if_pos ⟨(by simp [hai] : inst.a k i ≠ 0), (by simp [haj] : inst.a k j ≠ 0)⟩,
        if_neg (by simp [hai, haj])]
      exact hx0
  have hsum2 : ∑ k in Finset.range inst.numTests, xorTerm inst T (xorv i j) i j k
      ≤ ∑ k in diffSet inst i j, T k := by
    refine le_trans (Finset.sum_le_sum hbound) (le_of_eq ?_)
    unfold diffSet
    exact (Finset.sum_filter _ _).symm
  by_contra hno
  push_neg at hno
  have hz : ∑ k in diffSet inst i j, T k = 0 := by
    refine Finset.sum_eq_zero (fun k hkd => ?_)
    have hk' : k < inst.numTests := (mem_diffSet.mp hkd).1
    rcases (hT k hk' : T k = 0 ∨ T k = 1) with h | h
    · exact h
    · exact absurd h (hno k hkd)
  linarith

/-- Backward direction of the gadget/cardinality equivalence: a 0/1 selection
covering every disease pair extends (with `or_var = 1` and `xor_var = 0`) to
an integer-feasible point of the unrelaxed model. -/
lemma cover_int_feasible (inst : IPInstance) (hwf : WellFormed inst)
    (T : ℕ → ℚ) (hT01 : ∀ k, k < inst.numTests → T k = 0 ∨ T k = 1)
    (hcov : ∀ j, j < inst.numDiseases → ∀ i, i < j → ∃ k ∈ diffSet inst i j, T k = 1) :
    ModelFeasible inst false T orOneF xorZeroF := by
  have hT0 : ∀ k, k < inst.numTests → 0 ≤ T k := fun k hk => by
    rcases hT01 k hk with h | h <;> simp [h]
  have hT1 : ∀ k, k < inst.numTests → T k ≤ 1 := fun k hk => by
    rcases hT01 k hk with h | h <;> simp [h]
  constructor
  · exact fun k hk => hT01 k hk
  · intro j hj i hij
    have hi : i < inst.numDiseases := lt_trans hij hj
    refine ⟨Or.inr rfl, ?_, ?_, le_refl 1⟩
    · intro k hk
      refine ⟨fun hc => ?_, fun hc => ?_, fun hc => ?_⟩
      · have haQi := aQ_eq_one inst hwf hk hi hc.1
        have haQj := aQ_eq_one inst hwf hk hj hc.2
        have h0 := hT0 k hk
        have h1 := hT1 k hk
        refine ⟨Or.inl rfl, ?_, ?_, ?_, ?_, ?_⟩
        · rw [show xorZeroF i j k = (0 : ℚ) from rfl, haQi, haQj]
          linarith
        · rw [show xorZeroF i j k = (0 : ℚ) from rfl, haQi, haQj]
          linarith
        · rw [show xorZeroF i j k = (0 : ℚ) from rfl, haQi, haQj]
          linarith
        · rw [show xorZeroF i j k = (0 : ℚ) from rfl, haQi, haQj]
          linarith
        · rw [show xorZeroF i j k = (0 : ℚ) from rfl, show orOneF i j = (1 : ℚ) from rfl]
          linarith
      · rw [aQ_eq_one inst hwf hk hj hc.2, show orOneF i j = (1 : ℚ) from rfl, mul_one]
        exact hT1 k hk
      · rw [aQ_eq_one inst hwf hk hi hc.1, show orOneF i j = (1 : ℚ) from rfl, mul_one]
        exact hT1 k hk
    · obtain ⟨k0, hk0d, hk0T⟩ := hcov j hj i hij
      obtain ⟨hk0n, hk0ne⟩ := mem_diffSet.mp hk0d
      have hterm : xorTerm inst T (xorZeroF i j) i j k0 = 1 := by
        rcases a_mem_01 inst hwf hk0n hi with hai | hai <;>
          rcases a_mem_01 inst hwf hk0n hj with haj | haj
        · exact absurd (hai.trans haj.symm) hk0ne
        · unfold xorTerm
          rw [if_neg (by simp [hai]), if_pos ⟨hai, by simp [haj]⟩,
            aQ_eq_one inst hwf hk0n hj (by simp [haj]), hk0T, one_mul]
        · unfold xorTerm
          rw [if_neg (by simp [haj]), if_neg (by simp [hai]), if_pos ⟨by simp [hai], haj⟩,
            aQ_eq_one inst hwf hk0n hi (by simp [hai]), hk0T, one_mul]
        · exact absurd (hai.trans haj.symm) hk0ne
      have hnn : ∀ k ∈ Finset.range inst.numTests,
          0 ≤ xorTerm inst T (xorZeroF i j) i j k := by
        intro k hk
        have hk' := Finset.mem_range.mp hk
        unfold xorTerm
        split_ifs with h1 h2 h3
        · exact le_refl 0
        · rw [aQ_eq_one inst hwf hk' hj h2.2]
          have := hT0 k hk'
          linarith
        · rw [aQ_eq_one inst hwf hk' hi h3.1]
          have := hT0 k hk'
          linarith
        · exact le_refl 0
      calc orOneF i j = 1 := rfl
        _ = xorTerm inst T (xorZeroF i j) i j k0 := hterm.symm
        _ ≤ ∑ k in Finset.range inst.numTests, xorTerm inst T (xorZeroF i j) i j k :=
            Finset.single_le_sum hnn (Finset.mem_range.mpr hk0n)

/-- The indicator point is 0/1-valued. -/
lemma indT_01 (S : Finset ℕ) (k : ℕ) : indT S k = 0 ∨ indT S k = 1 := by
  unfold indT
  split_ifs <;> simp

/-- The indicator point is 1 on the selection. -/
lemma indT_eq_one {S : Finset ℕ} {k : ℕ} (h : k ∈ S) : indT S k = 1 := by
  unfold indT
  rw [if_pos h]

/-- The values of the XOR-gadget model over integer assignments coincide with
the values of the cardinality formulation over covering selections. -/
lemma gadget_eq_card (inst : IPInstance) (hwf : WellFormed inst) :
    gadgetVals inst = cardVals inst := by
  ext v
  constructor
  · rintro ⟨T, orv, xorv, hfeas, hobj⟩
    refine ⟨(Finset.range inst.numTests).filter (fun k => T k = 1),
      Finset.filter_subset _ _, ?_, ?_⟩
    · intro j hj i hij
      obtain ⟨k, hkd, hkT⟩ := int_feasible_covers inst hwf T orv xorv hfeas j hj i hij
      exact ⟨k, hkd,
        Finset.mem_filter.mpr ⟨Finset.mem_range.mpr (mem_diffSet.mp hkd).1, hkT⟩⟩
    · rw [← hobj]
      unfold objective selCost
      rw [Finset.sum_filter]
      refine Finset.sum_congr rfl (fun k hk => ?_)
      have hk' := Finset.mem_range.mp hk
      rcases (hfeas.1 k hk' : T k = 0 ∨ T k = 1) with h | h <;> rw [h] <;> norm_num
  · rintro ⟨S, hsub, hcov, hcost⟩
    have hcov' : ∀ j, j < inst.numDiseases → ∀ i, i < j →
        ∃ k ∈ diffSet inst i j, indT S k = 1 := by
      intro j hj i hij
      obtain ⟨k, hkd, hkS⟩ := hcov j hj i hij
      exact ⟨k, hkd, indT_eq_one hkS⟩
    exact ⟨indT S, orOneF, xorZeroF,
      cover_int_feasible inst hwf _ (fun k _ => indT_01 S k) hcov',
      by rw [objective_indT inst hsub, hcost]⟩

/-- The value returned by `solve` (the relaxed optimum) is at most the cost of
any covering selection. -/
lemma lp_le_cover (inst : IPInstance) (hwf : WellFormed inst) {v : ℚ} {S : Finset ℕ}
    (hsub : S ⊆ Finset.range inst.numTests) (hcov : Covers inst S)
    (hs : SolveReturns inst v) : v ≤ selCost inst S := by
  have hcov' : ∀ j, j < inst.numDiseases → ∀ i, i < j →
      ∃ k ∈ diffSet inst i j, indT S k = 1 := by
    intro j hj i hij
    obtain ⟨k, hkd, hkS⟩ := hcov j hj i hij
    exact ⟨k, hkd, indT_eq_one hkS⟩
  have hfeas := relax_of_int inst _ _ _
    (cover_int_feasible inst hwf (indT S) (fun k _ => indT_01 S k) hcov')
  have hle := hs.2 (indT S) orOneF xorZeroF hfeas
  rwa [objective_indT inst hsub] at hle

/-- A successful NumPy row assignment yields a row of length `m`. -/
lemma assignRow_length {vals : List ℤ} {m : ℕ} {row : List ℤ}
    (h : assignRow vals m = some row) : row.length = m := by
  unfold assignRow at h
  split_ifs at h with h1 h2
  · rw [← Option.some.inj h]
    exact h1
  · rw [← Option.some.inj h]
    exact List.length_replicate m _

/-- The matrix-filling loop returns exactly `cnt` rows of length `m`. -/
lemma parseRowsAux_dims (lines : List String) (m : ℕ) :
    ∀ cnt idx A, parseRowsAux lines m idx cnt = some A →
      A.length = cnt ∧ ∀ row ∈ A, row.length = m := by
  intro cnt
  induction cnt with
  | zero =>
    intro idx A h
    have hA : A = [] := (Option.some.inj h).symm
    subst hA
    exact ⟨rfl, by simp⟩
  | succ cnt ih =>
    intro idx A h
    unfold parseRowsAux at h
    obtain ⟨vals, hvals, h⟩ := Option.bind_eq_some.mp h
    obtain ⟨row, hrow, h⟩ := Option.bind_eq_some.mp h
    obtain ⟨rest, hrest, h⟩ := Option.bind_eq_some.mp h
    have hA : A = row :: rest := (Option.some.inj h).symm
    subst hA
    obtain ⟨hlen, hall⟩ := ih (idx + 1) rest hrest
    refine ⟨by simp [hlen], ?_⟩
    intro r hr
    rcases List.mem_cons.mp hr with hr | hr
    · rw [hr]
      exact assignRow_length hrow
    · exact hall r hr

/-- On success, `data_parse` returns nonnegative dimensions and a fully
filled `numTests × numDiseases` matrix. -/
lemma data_parse_dims {lines : List String} {n m : ℤ} {cost : List ℚ}
    {A : List (List ℤ)} (h : data_parse lines = some (n, m, cost, A)) :
    0 ≤ n ∧ 0 ≤ m ∧ A.length = n.toNat ∧ ∀ row ∈ A, row.length = m.toNat := by
  unfold data_parse at h
  obtain ⟨nT, hnT, h⟩ := Option.bind_eq_some.mp h
  obtain ⟨nD, hnD, h⟩ := Option.bind_eq_some.mp h
  obtain ⟨c, hc, h⟩ := Option.bind_eq_some.mp h
  split_ifs at h with hneg
  push_neg at hneg
  obtain ⟨A', hA', h⟩ := Option.bind_eq_some.mp h
  have htup := Option.some.inj h
  simp only [Prod.mk.injEq] at htup
  obtain ⟨h1, h2, -, h4⟩ := htup
  subst h1
  subst h2
  subst h4
  obtain ⟨hlen, hall⟩ := parseRowsAux_dims lines _ _ _ _ hA'
  exact ⟨by omega, by omega, hlen, hall⟩

/-- Cost of selecting only test 1 in `gapEx`. -/
lemma selCost_gapEx_one : selCost gapEx {1} = 10 := by
  unfold selCost
  rw [Finset.sum_singleton]
  rfl

/-- Cost of selecting both tests in `gapEx`. -/
lemma selCost_gapEx_both : selCost gapEx {0, 1} = 11 := by
  unfold selCost
  rw [Finset.sum_insert (by decide), Finset.sum_singleton,
    show gapEx.cost 0 = (1 : ℚ) from rfl, show gapEx.cost 1 = (10 : ℚ) from rfl]
  norm_num

/-- Brute force on `gapEx`: only test 1 distinguishes the pair, so the
feasible selections are `{1}` and `{0,1}` and the integer optimum is 10. -/
lemma bruteOpt_gapEx : IsBruteOpt gapEx 10 := by
  have hfs : feasibleSelections gapEx = {{1}, {0, 1}} := by decide
  constructor
  · rw [hfs]
    exact Finset.mem_image.mpr ⟨{1}, by decide, selCost_gapEx_one⟩
  · intro w hw
    rw [hfs] at hw
    obtain ⟨S, hS, rfl⟩ := Finset.mem_image.mp hw
    fin_cases hS
    · rw [selCost_gapEx_one]
    · rw [selCost_gapEx_both]
      norm_num

/-- The unique optimal selection of `gapEx` is `{1}`. -/
lemma optSel_gapEx : {1} ∈ optimalSelections gapEx := by
  unfold optimalSelections
  refine Finset.mem_filter.mpr ⟨by decide, ?_⟩
  intro S' hS'
  have hfs : feasibleSelections gapEx = {{1}, {0, 1}} := by decide
  rw [hfs] at hS'
  rw [selCost_gapEx_one]
  fin_cases hS'
  · rw [selCost_gapEx_one]
  · rw [selCost_gapEx_both]
    norm_num

/-- Cost of selecting only test 0 in `ex7`. -/
lemma selCost_ex7_zero : selCost ex7 {0} = 1 := by
  unfold selCost
  rw [Finset.sum_singleton]
  rfl

/-- Every feasible selection of `ex7` other than `{0}` costs at least 3. -/
lemma selCost_ex7_cases : ∀ S ∈ feasibleSelections ex7, S = {0} ∨ 3 ≤ selCost ex7 S := by
  have hfs : feasibleSelections ex7 = {{0}, {2}, {0, 1}, {0, 2}, {1, 2}, {0, 1, 2}} := by
    decide
  intro S hS
  rw [hfs] at hS
  fin_cases hS
  · exact Or.inl rfl
  · refine Or.inr ?_
    unfold selCost
    rw [Finset.sum_singleton, show ex7.cost 2 = (3 : ℚ) from rfl]
  · refine Or.inr ?_
    unfold selCost
    rw [Finset.sum_insert (by decide), Finset.sum_singleton,
      show ex7.cost 0 = (1 : ℚ) from rfl, show ex7.cost 1 = (2 : ℚ) from rfl]
    norm_num
  · refine Or.inr ?_
    unfold selCost
    rw [Finset.sum_insert (by decide), Finset.sum_singleton,
      show ex7.cost 0 = (1 : ℚ) from rfl, show ex7.cost 2 = (3 : ℚ) from rfl]
    norm_num
  · refine Or.inr ?_
    unfold selCost
    rw [Finset.sum_insert (by decide), Finset.sum_singleton,
      show ex7.cost 1 = (2 : ℚ) from rfl, show ex7.cost 2 = (3 : ℚ) from rfl]
    norm_num
  · refine Or.inr ?_
    unfold selCost
    rw [Finset.sum_insert (by decide), Finset.sum_insert (by decide),
      Finset.sum_singleton, show ex7.cost 0 = (1 : ℚ) from rfl,
      show ex7.cost 1 = (2 : ℚ) from rfl, show ex7.cost 2 = (3 : ℚ) from rfl]
    norm_num

/-- Brute force on `ex7`: the integer optimum is 1. -/
lemma bruteOpt_ex7 : IsBruteOpt ex7 1 := by
  constructor
  · exact Finset.mem_image.mpr ⟨{0}, by decide, selCost_ex7_zero⟩
  · intro w hw
    obtain ⟨S, hS, rfl⟩ := Finset.mem_image.mp hw
    rcases selCost_ex7_cases S hS with h | h
    · rw [h, selCost_ex7_zero]
    · rw [show (1 : ℚ) = 1 from rfl]
      linarith

/-- `{0}` is an optimal selection of `ex7`. -/
lemma optSel_ex7_mem : {0} ∈ optimalSelections ex7 := by
  unfold optimalSelections
  refine Finset.mem_filter.mpr ⟨by decide, ?_⟩
  intro S' hS'
  rw [selCost_ex7_zero]
  rcases selCost_ex7_cases S' hS' with h | h
  · rw [h, selCost_ex7_zero]
  · linarith

/-- `{0}` is the only optimal selection of `ex7`. -/
lemma optSel_ex7_unique : ∀ S ∈ optimalSelections ex7, S = {0} := by
  intro S hS
  unfold optimalSelections at hS
  obtain ⟨hfeas, hmin⟩ := Finset.mem_filter.mp hS
  rcases selCost_ex7_cases S hfeas with h | h
  · exact h
  · exfalso
    have hle := hmin {0} (by decide)
    rw [selCost_ex7_zero] at hle
    linarith

/-! ## Claims -/

/-- **C1, counterexample.**  The claim states that `solve()` returns the exact
integer optimum on well-formed instances with `numTests ≤ 15`.  On `gapEx`
(2 tests, 2 diseases, costs `[1,10]`, `A=[[1,1],[1,0]]`) `__init__` relaxes
the model, the XOR gadget on test 0 degenerates (`T 0 = 1/2` yields
`xor = 1`), and `solve` returns `1/2`, while brute-force enumeration over all
binary selection subsets gives the integer optimum `10`. -/
theorem C1_counterexample :
    (WellFormed gapEx ∧ gapEx.numTests ≤ 15 ∧ SolveReturns gapEx (1/2) ∧
      IsBruteOpt gapEx 10) ∧ (1/2 : ℚ) ≠ 10 :=
  ⟨⟨by decide, by decide, solve_gapEx, bruteOpt_gapEx⟩, by norm_num⟩

/-- **C1, amended.**  For every well-formed instance with `numTests ≤ 15`,
the value returned by `solve()` is a lower bound on (not necessarily equal
to) the exact integer optimum obtained by brute-force enumeration: the model
solved is the continuous relaxation. -/
theorem C1_amended_lower_bound (inst : IPInstance) (v w : ℚ)
    (hwf : WellFormed inst) (_hn : inst.numTests ≤ 15)
    (hs : SolveReturns inst v) (hb : IsBruteOpt inst w) : v ≤ w := by
  obtain ⟨hmem, -⟩ := hb
  obtain ⟨S, hS, rfl⟩ := Finset.mem_image.mp hmem
  unfold feasibleSelections at hS
  obtain ⟨hpow, hcov⟩ := Finset.mem_filter.mp hS
  exact lp_le_cover inst hwf (Finset.mem_powerset.mp hpow) hcov hs

/-- **C1, witness** for the amended claim, at `gapEx`. -/
theorem C1_amended_lower_bound_witness : (1/2 : ℚ) ≤ 10 :=
  C1_amended_lower_bound gapEx (1/2) 10 (by decide) (by decide) solve_gapEx bruteOpt_gapEx

/-- **C2, counterexample.**  The claim states that `solve` returns a triple
`(objectiveValue, selectedTestIndices, status)`.  In the code `solve` returns
only `self.model.objective_value`, a single scalar: `gapEx` and `ex3inf` both
make `solve` return `1/2`, although their optimal selection sets differ
(`{1}` is optimal for `gapEx`; `ex3inf` has no feasible selection at all), so
no selected-test set is recoverable from the return value. -/
theorem C2_counterexample :
    SolveReturns gapEx (1/2) ∧ SolveReturns ex3inf (1/2) ∧
      optimalSelections gapEx ≠ optimalSelections ex3inf := by
  refine ⟨solve_gapEx, solve_ex3inf, ?_⟩
  intro heq
  have h2 : optimalSelections ex3inf = ∅ := by decide
  have h1 := optSel_gapEx
  rw [heq, h2] at h1
  exact absurd h1 (Finset.not_mem_empty _)

/-- **C2, amended.**  `solve` returns only the objective value of the relaxed
model — a single scalar, uniquely determined by the instance; the selected
test indices and the status tag are not part of the return (`main` attaches
the constant status separately, see C5). -/
theorem C2_amended_scalar_return (inst : IPInstance) (v w : ℚ)
    (hv : SolveReturns inst v) (hw : SolveReturns inst w) : v = w := by
  obtain ⟨⟨T, orv, xorv, hf, hobj⟩, hlb⟩ := hv
  obtain ⟨⟨T', orv', xorv', hf', hobj'⟩, hlb'⟩ := hw
  have h1 := hlb T' orv' xorv' hf'
  have h2 := hlb' T orv xorv hf
  rw [hobj'] at h1
  rw [hobj] at h2
  linarith

/-- **C2, witness** for the amended claim, at `gapEx`. -/
theorem C2_amended_scalar_return_witness : (1/2 : ℚ) = 1/2 :=
  C2_amended_scalar_return gapEx (1/2) (1/2) solve_gapEx solve_gapEx

/-- **C3, counterexample.**  The claim states that an instance with an empty
`diff(i,j)` reports `InfeasibleInstanceError`.  On `ex3inf` (one test to
which both diseases respond) `diff(0,1)` is empty, yet the relaxed model is
feasible and `solve` returns the plain value `1/2` — no infeasibility is
reported anywhere in the code. -/
theorem C3_counterexample :
    WellFormed ex3inf ∧ diffSet ex3inf 0 1 = ∅ ∧ SolveReturns ex3inf (1/2) :=
  ⟨by decide, by decide, solve_ex3inf⟩

/-- **C3, amended.**  The code never reports `InfeasibleInstanceError`.  An
empty `diff(i,j)` does not make the relaxed model infeasible in general: on
the counterexample instance `ex3inf` the relaxation is satisfiable and
`solve` returns the plain value `1/2`.  When the relaxed model is infeasible,
`model.solve()` finds no solution and `model.objective_value` raises an
unhandled exception — a crash, not a definitive "no solution exists" report.
This theorem proves one sufficient condition for that: a pair whose two
columns are entirely zero contributes no `xor_vars`, so `or_var >= 1` clashes
with `or_var <= sum([])`.  It is a sufficient condition only — the relaxation
can also be infeasible with identical nonzero columns through the other
pairs' constraints (e.g. `numTests=1`, `numDiseases=3`, `A=[[1,1,0]]`, where
pair `(0,1)` forces `T 0 = 1/2` while pair `(0,2)` forces `T 0 ≥ 1`). -/
theorem C3_amended_empty_gadget_infeasible (inst : IPInstance) (i j : ℕ)
    (hij : i < j) (hj : j < inst.numDiseases)
    (hzero : ∀ k, k < inst.numTests → inst.a k i = 0 ∧ inst.a k j = 0) :
    ¬ ∃ T orv xorv, ModelFeasible inst true T orv xorv := by
  rintro ⟨T, orv, xorv, hT, hp⟩
  obtain ⟨ho, hks, hsum, hone⟩ := hp j hj i hij
  have hz : ∑ k in Finset.range inst.numTests, xorTerm inst T (xorv i j) i j k = 0 := by
    refine Finset.sum_eq_zero (fun k hk => ?_)
    have hk' := Finset.mem_range.mp hk
    obtain ⟨h1, h2⟩ := hzero k hk'
    unfold xorTerm
    rw [if_neg (by simp [h1]), if_neg (by simp [h2]), if_neg (by simp [h1])]
  rw [hz] at hsum
  have ho' : 0 ≤ orv i j ∧ orv i j ≤ 1 := ho
  linarith

/-- **C3, witness** for the amended claim: on `exZero` (both disease columns
all zero) even the relaxed model is infeasible. -/
theorem C3_amended_empty_gadget_infeasible_witness :
    ¬ ∃ T orv xorv, ModelFeasible exZero true T orv xorv :=
  C3_amended_empty_gadget_infeasible exZero 0 1 (by decide) (by decide) (by decide)

/-- **C4.**  For well-formed instances, a 0/1 test-selection assignment
extends with suitable auxiliary values (`or_var = 1`, `xor_var = 0`) to a
satisfying assignment of the XOR-gadget constraint system if and only if
every unordered disease pair has a selected distinguishing test; hence the
attainable objective values of the gadget formulation over integer
assignments and of the cardinality formulation coincide, and so do their
optimal values. -/
theorem C4_gadget_equiv_cardinality (inst : IPInstance) (hwf : WellFormed inst) :
    (∀ T : ℕ → ℚ, (∀ k, k < inst.numTests → T k = 0 ∨ T k = 1) →
      ((∃ orv xorv, ModelFeasible inst false T orv xorv) ↔
        (∀ j, j < inst.numDiseases → ∀ i, i < j → ∃ k ∈ diffSet inst i j, T k = 1))) ∧
    gadgetVals inst = cardVals inst ∧
    (∀ v : ℚ, IsLeast (gadgetVals inst) v ↔ IsLeast (cardVals inst) v) := by
  have hset := gadget_eq_card inst hwf
  refine ⟨?_, hset, fun v => by rw [hset]⟩
  intro T hT01
  constructor
  · rintro ⟨orv, xorv, hfeas⟩
    exact int_feasible_covers inst hwf T orv xorv hfeas
  · intro hcov
    exact ⟨orOneF, xorZeroF, cover_int_feasible inst hwf T hT01 hcov⟩

/-- **C4, witness** at the worked example `ex7`. -/
theorem C4_gadget_equiv_cardinality_witness :
    WellFormed ex7 ∧ gadgetVals ex7 = cardVals ex7 :=
  ⟨by decide, (C4_gadget_equiv_cardinality ex7 (by decide)).2.1⟩

/-- **C5, counterexample.**  The claim states that the status tag is `OPT`
only when integer optimality is proven.  `main` unconditionally writes
`"Solution": "OPT"`; on `gapEx` the record carries the relaxed value `1/2`
although the integer optimum is `10`, so optimality of the reported value is
false, let alone proven. -/
theorem C5_counterexample :
    (mainRecord "gapEx" "0.0" (1/2)).solution = "OPT" ∧
      SolveReturns gapEx (1/2) ∧ IsBruteOpt gapEx 10 ∧ (1/2 : ℚ) ≠ 10 :=
  ⟨rfl, solve_gapEx, bruteOpt_gapEx, by norm_num⟩

/-- **C5, amended.**  Every output record produced by `main` carries the
constant status `"OPT"`, regardless of the solved value or of any optimality
proof. -/
theorem C5_amended_status_constant :
    ∀ (name time : String) (v : ℚ), (mainRecord name time v).solution = "OPT" :=
  fun _ _ _ => rfl

/-- **C6, counterexample.**  The claim states that a dimension mismatch such
as `cost.length != numTests` makes loading fail with a `FormatError`.  On
`badLines` (`numTests = 2` but a single cost token) `data_parse` succeeds,
returning a parsed tuple whose cost vector has length 1 ≠ 2. -/
theorem C6_counterexample :
    (data_parse badLines).map (fun r => (r.1, r.2.1, r.2.2.1.length, r.2.2.2))
        = some (2, 2, 1, [[1, 0], [0, 1]]) ∧
      ¬ ((1 : ℕ) = (2 : ℤ).toNat) :=
  ⟨by decide, by decide⟩

/-- **C6, amended.**  `data_parse` does fail (print and `exit(1)`, modelled
by `none`) on non-numeric tokens, missing header lines and malformed matrix
rows, and on success the matrix dimensions are validated
(`A.rows = numTests`, every row of length `numDiseases`, both nonnegative);
but the cost-vector length is never checked against `numTests`. -/
theorem C6_amended_dims_validated : ∀ (lines : List String) (n m : ℤ)
    (cost : List ℚ) (A : List (List ℤ)), data_parse lines = some (n, m, cost, A) →
    0 ≤ n ∧ 0 ≤ m ∧ A.length = n.toNat ∧ ∀ row ∈ A, row.length = m.toNat :=
  fun _ _ _ _ _ h => data_parse_dims h

/-- **C6, witness** for the amended claim, at `badLines`. -/
theorem C6_amended_dims_validated_witness :
    0 ≤ (2 : ℤ) ∧ 0 ≤ (2 : ℤ) ∧
      ([[(1 : ℤ), 0], [0, 1]] : List (List ℤ)).length = (2 : ℤ).toNat ∧
      ∀ row ∈ ([[(1 : ℤ), 0], [0, 1]] : List (List ℤ)), row.length = (2 : ℤ).toNat :=
  C6_amended_dims_validated badLines 2 2 [((1 : ℕ) : ℚ)] [[1, 0], [0, 1]] rfl

/-- **C7.**  On the spec's worked example (`numTests=3`, `numDiseases=2`,
`cost=[1,2,3]`, `A=[[1,0],[1,1],[0,1]]`) `solve` returns exactly `1`
(here the relaxed optimum coincides with the integer optimum), and `{0}` is
the unique minimum-cost covering selection. -/
theorem C7_example_instance :
    SolveReturns ex7 1 ∧ IsBruteOpt ex7 1 ∧ optimalSelections ex7 = {{0}} := by
  refine ⟨solve_ex7, bruteOpt_ex7, ?_⟩
  ext S
  rw [Finset.mem_singleton]
  constructor
  · exact optSel_ex7_unique S
  · rintro rfl
    exact optSel_ex7_mem

/-- **C8.**  `__init__` always builds the relaxed model
(`build_constraints(True, True)`, then `LinearRelaxer.make_relaxed_model`),
so the value `solve()` returns — the optimum of that relaxation — is at most
the cost of every covering selection, i.e. at most the integer optimum of the
formulation. -/
theorem C8_relaxation_lower_bound (inst : IPInstance) (v : ℚ) (S : Finset ℕ)
    (hwf : WellFormed inst) (hs : SolveReturns inst v)
    (hsub : S ⊆ Finset.range inst.numTests) (hcov : Covers inst S) :
    v ≤ selCost inst S :=
  lp_le_cover inst hwf hsub hcov hs

/-- **C8, witness** at `gapEx` with the covering selection `{1}`. -/
theorem C8_relaxation_lower_bound_witness : (1/2 : ℚ) ≤ selCost gapEx {1} :=
  C8_relaxation_lower_bound gapEx (1/2) {1} (by decide) solve_gapEx (by decide) (by decide)

/-- **C9.**  In every integer-feasible solution of the unrelaxed model of a
well-formed instance, the `xor_var` created for a pair `(i,j)` and a test `k`
with `A[k][i] ≠ 0` and `A[k][j] ≠ 0` equals 0, forced by
`xor_var <= T_k + T_k` and `xor_var <= 2 - T_k - T_k`; such tests contribute
nothing towards the pair's `or_var`. -/
theorem C9_xor_var_zero (inst : IPInstance) (hwf : WellFormed inst)
    (T : ℕ → ℚ) (orv : ℕ → ℕ → ℚ) (xorv : ℕ → ℕ → ℕ → ℚ)
    (h : ModelFeasible inst false T orv xorv) (i j k : ℕ)
    (hij : i < j) (hj : j < inst.numDiseases) (hk : k < inst.numTests)
    (hi' : inst.a k i ≠ 0) (hj' : inst.a k j ≠ 0) :
    xorv i j k = 0 := by
  obtain ⟨hT, hp⟩ := h
  have hi : i < inst.numDiseases := lt_trans hij hj
  obtain ⟨-, hks, -, -⟩ := hp j hj i hij
  have hx := (hks k hk).1 ⟨hi', hj'⟩
  have hb := hx.2.1
  have he := hx.2.2.2.2.1
  rw [aQ_eq_one inst hwf hk hi hi', aQ_eq_one inst hwf hk hj hj'] at hb he
  rcases (hx.1 : xorv i j k = 0 ∨ xorv i j k = 1) with h0 | h1
  · exact h0
  · exfalso
    rcases (hT k hk : T k = 0 ∨ T k = 1) with h | h <;>
      rw [h] at hb he <;> rw [h1] at hb he <;> linarith

/-- **C9, witness**: a concrete integer-feasible point of `gapEx` (select
test 1, `or_var = 1`, `xor_var = 0`) at which the theorem applies to the
gadget of test 0. -/
theorem C9_xor_var_zero_witness : scale3 1 (fun _ _ _ => 0) 0 1 0 = 0 :=
  C9_xor_var_zero gapEx (by decide) (scale1 1 (fun k => if k = 1 then 1 else 0))
    (scale2 1 (fun _ _ => 1)) (scale3 1 (fun _ _ _ => 0))
    (ModelFeasible_of_scaled gapEx false (by norm_num) _ _ _ (by decide))
    0 1 0 (by decide) (by decide) (by decide) (by decide) (by decide)

/-- **C10.**  `data_parse` never raises to its caller: the catch-all
`except Exception` prints a message and terminates the process (`exit(1)`,
modelled by `none`), and otherwise the returned tuple is complete — in
particular, the matrix handed to `IPInstance.__init__` is a fully filled
`numTests × numDiseases` array, never a partial one. -/
theorem C10_parse_total_or_complete : ∀ lines : List String,
    data_parse lines = none ∨
      ∃ n m cost A, data_parse lines = some (n, m, cost, A) ∧
        A.length = n.toNat ∧ ∀ row ∈ A, row.length = m.toNat := by
  intro lines
  cases h : data_parse lines with
  | none => exact Or.inl rfl
  | some r =>
    obtain ⟨n, m, cost, A⟩ := r
    obtain ⟨-, -, h3, h4⟩ := data_parse_dims h
    exact Or.inr ⟨n, m, cost, A, rfl, h3, h4⟩
